import Mathlib

/-!
Shallow embedding of `include/etl/queue_spsc_locked.h` (Embedded Template
Library, fixed-capacity single-producer/single-consumer locked queue).

The C++ buffer of possibly-uninitialised `T` slots is modelled as a
`List (Option α)`: `some v` is a constructed (live) slot holding `v`,
`none` is an uninitialised or destructed slot.  Placement-new is `set i
(some v)`, an explicit destructor call is `set i none`.  The `size_type`
counters are modelled as `Nat`: the C++ static assert guarantees
`MAX_SIZE` fits the memory model's integer type, and all counters and
indices stay in `[0, MAX_SIZE]`, so no machine-integer wraparound can
occur in the source.

The injected `lock`/`unlock` callables (`const etl::ifunction<void>&`)
act only on the outside world, never on the queue fields; they are
modelled as a pair of functions on an abstract world type `W`.
-/

namespace EtlQueue

/-- State of `etl::iqueue_spsc_locked_base<T>`: buffer pointer plus the
four bookkeeping fields (`write_index`, `read_index`, `current_size`,
`MAX_SIZE`). -/
structure Queue (α : Type) where
  p_buffer : List (Option α)
  write_index : Nat
  read_index : Nat
  current_size : Nat
  MAX_SIZE : Nat
deriving DecidableEq, Repr

variable {α β W : Type}

/-- `get_next_index(index, maximum)`: increment then wrap to zero at
`maximum` (source lines 421-431). -/
def get_next_index (index maximum : Nat) : Nat :=
  if index + 1 = maximum then 0 else index + 1

/-- `push_implementation(const_reference value)` (source lines 201-216).
Returns the `bool` result and the updated state. -/
def push_implementation (q : Queue α) (value : α) : Bool × Queue α :=
  if q.current_size ≠ q.MAX_SIZE then
    (true,
      { q with
        p_buffer := q.p_buffer.set q.write_index (some value)
        write_index := get_next_index q.write_index q.MAX_SIZE
        current_size := q.current_size + 1 })
  else
    (false, q)

/-- `emplace_implementation(Args&&... args)` (source lines 246-262): same
as push but the stored element is built in place as `T(args...)`,
modelled by an arbitrary constructor function applied to its argument
pack. -/
def emplace_implementation (q : Queue α) (ctor : β → α) (args : β) : Bool × Queue α :=
  if q.current_size ≠ q.MAX_SIZE then
    (true,
      { q with
        p_buffer := q.p_buffer.set q.write_index (some (ctor args))
        write_index := get_next_index q.write_index q.MAX_SIZE
        current_size := q.current_size + 1 })
  else
    (false, q)

/-- `pop_implementation(reference value)` (source lines 357-373).  `out`
is the value held by the caller's reference before the call; it is
returned unchanged on failure.  Reading an uninitialised slot is
undefined behaviour in C++; the model reads the slot's `Option` and
falls back to `out`, a branch never taken from a well-formed state. -/
def pop_implementation (q : Queue α) (out : α) : Bool × α × Queue α :=
  if q.current_size = 0 then
    (false, out, q)
  else
    (true, (q.p_buffer.getD q.read_index none).getD out,
      { q with
        p_buffer := q.p_buffer.set q.read_index none
        read_index := get_next_index q.read_index q.MAX_SIZE
        current_size := q.current_size - 1 })

/-- `pop_implementation()` — the discarding form (source lines 401-416):
destructs the slot without exposing its value. -/
def pop_implementation_discard (q : Queue α) : Bool × Queue α :=
  if q.current_size = 0 then
    (false, q)
  else
    (true,
      { q with
        p_buffer := q.p_buffer.set q.read_index none
        read_index := get_next_index q.read_index q.MAX_SIZE
        current_size := q.current_size - 1 })

/-- `push_from_unlocked` (source lines 70-73): delegates to
`push_implementation`. -/
def push_from_unlocked (q : Queue α) (value : α) : Bool × Queue α :=
  push_implementation q value

/-- `emplace_from_unlocked` (source lines 91-95). -/
def emplace_from_unlocked (q : Queue α) (ctor : β → α) (args : β) : Bool × Queue α :=
  emplace_implementation q ctor args

/-- `pop_from_unlocked(reference)` (source lines 101-104). -/
def pop_from_unlocked (q : Queue α) (out : α) : Bool × α × Queue α :=
  pop_implementation q out

/-- `pop_from_unlocked()` — discarding form (source lines 119-122). -/
def pop_from_unlocked_discard (q : Queue α) : Bool × Queue α :=
  pop_implementation_discard q

/-- `available_from_unlocked` (source lines 128-131). -/
def available_from_unlocked (q : Queue α) : Nat :=
  q.MAX_SIZE - q.current_size

/-- `empty_from_unlocked` (source lines 148-151). -/
def empty_from_unlocked (q : Queue α) : Bool :=
  q.current_size = 0

/-- `full_from_unlocked` (source lines 157-160). -/
def full_from_unlocked (q : Queue α) : Bool :=
  q.current_size = q.MAX_SIZE

/-- `size_from_unlocked` (source lines 166-169). -/
def size_from_unlocked (q : Queue α) : Nat :=
  q.current_size

/-- `capacity()` (source lines 174-177). -/
def capacity (q : Queue α) : Nat :=
  q.MAX_SIZE

/-- `clear_from_unlocked` (source lines 136-142): `while
(pop_implementation()) {}`.  The loop terminates because each
successful discarding pop strictly decreases `current_size`. -/
def clear_from_unlocked (q : Queue α) : Queue α :=
  if h : (pop_implementation_discard q).1 = true then
    clear_from_unlocked (pop_implementation_discard q).2
  else
    (pop_implementation_discard q).2
termination_by q.current_size
decreasing_by
  unfold pop_implementation_discard at h ⊢
  by_cases h0 : q.current_size = 0
  · simp [h0] at h
  · simp [h0]
    omega

/-- The state of `etl::queue_spsc_locked<T, SIZE>` right after its
constructor (source lines 189-196 and 762-766): indices and size zero,
`SIZE` uninitialised slots. -/
def initial (α : Type) (N : Nat) : Queue α :=
  { p_buffer := List.replicate N none
    write_index := 0
    read_index := 0
    current_size := 0
    MAX_SIZE := N }

/-- The pair of injected callables held by `etl::iqueue_spsc_locked`
(source lines 731-732).  They act on an abstract world `W` only: the
queue fields are untouched by them. -/
structure Locks (W : Type) where
  lock : W → W
  unlock : W → W

namespace iqueue_spsc_locked

/-- `iqueue_spsc_locked::push` (source lines 484-493): `lock();
push_implementation; unlock(); return result`. -/
def push (L : Locks W) (q : Queue α) (w : W) (value : α) : Bool × Queue α × W :=
  let w1 := L.lock w
  let r := push_implementation q value
  let w2 := L.unlock w1
  (r.1, r.2, w2)

/-- `iqueue_spsc_locked::emplace` (source lines 516-526). -/
def emplace (L : Locks W) (q : Queue α) (w : W) (ctor : β → α) (args : β) :
    Bool × Queue α × W :=
  let w1 := L.lock w
  let r := emplace_implementation q ctor args
  let w2 := L.unlock w1
  (r.1, r.2, w2)

/-- `iqueue_spsc_locked::pop(reference)` (source lines 596-605). -/
def pop (L : Locks W) (q : Queue α) (w : W) (out : α) : Bool × α × Queue α × W :=
  let w1 := L.lock w
  let r := pop_implementation q out
  let w2 := L.unlock w1
  (r.1, r.2.1, r.2.2, w2)

/-- `iqueue_spsc_locked::pop()` — discarding form (source lines
626-635). -/
def pop_discard (L : Locks W) (q : Queue α) (w : W) : Bool × Queue α × W :=
  let w1 := L.lock w
  let r := pop_implementation_discard q
  let w2 := L.unlock w1
  (r.1, r.2, w2)

/-- `iqueue_spsc_locked::clear` (source lines 640-650): a single
lock/unlock bracket around the whole drain loop. -/
def clear (L : Locks W) (q : Queue α) (w : W) : Queue α × W :=
  let w1 := L.lock w
  let q2 := clear_from_unlocked q
  let w2 := L.unlock w1
  (q2, w2)

/-- `iqueue_spsc_locked::empty` (source lines 655-664). -/
def empty (L : Locks W) (q : Queue α) (w : W) : Bool × W :=
  let w1 := L.lock w
  let result := decide (q.current_size = 0)
  let w2 := L.unlock w1
  (result, w2)

/-- `iqueue_spsc_locked::full` (source lines 669-678). -/
def full (L : Locks W) (q : Queue α) (w : W) : Bool × W :=
  let w1 := L.lock w
  let result := decide (q.current_size = q.MAX_SIZE)
  let w2 := L.unlock w1
  (result, w2)

/-- `iqueue_spsc_locked::size` (source lines 683-692). -/
def size (L : Locks W) (q : Queue α) (w : W) : Nat × W :=
  let w1 := L.lock w
  let result := q.current_size
  let w2 := L.unlock w1
  (result, w2)

/-- `iqueue_spsc_locked::available` (source lines 697-706). -/
def available (L : Locks W) (q : Queue α) (w : W) : Nat × W :=
  let w1 := L.lock w
  let result := q.MAX_SIZE - q.current_size
  let w2 := L.unlock w1
  (result, w2)

end iqueue_spsc_locked

/-- `~queue_spsc_locked()` (source lines 771-774): invokes the locked
`clear()`. -/
def queue_spsc_locked_destructor (L : Locks W) (q : Queue α) (w : W) :
    Queue α × W :=
  iqueue_spsc_locked.clear L q w

/-- Abstraction: the live contents of the queue, oldest first — the
`current_size` slots starting at `read_index`, wrapping modulo
`MAX_SIZE`.  (On a well-formed state every such slot is `some`, so
`filterMap` drops nothing.) -/
def toList (q : Queue α) : List α :=
  (List.range q.current_size).filterMap
    (fun i => q.p_buffer.getD ((q.read_index + i) % q.MAX_SIZE) none)

/-- Well-formedness of a queue state; established by the constructor and
preserved by every operation. -/
structure WF (q : Queue α) : Prop where
  pos : 0 < q.MAX_SIZE
  buf_len : q.p_buffer.length = q.MAX_SIZE
  size_le : q.current_size ≤ q.MAX_SIZE
  wi_lt : q.write_index < q.MAX_SIZE
  ri_lt : q.read_index < q.MAX_SIZE
  wi_eq : q.write_index = (q.read_index + q.current_size) % q.MAX_SIZE
  live : ∀ i, i < q.current_size →
    (q.p_buffer.getD ((q.read_index + i) % q.MAX_SIZE) none).isSome

/-- Instrumented drain loop: the same `while (pop_implementation())`
recursion as `clear_from_unlocked`, additionally recording, oldest
first, the slot contents destructed by each successful discarding
pop. -/
def clear_trace (q : Queue α) : List (Option α) × Queue α :=
  if h : (pop_implementation_discard q).1 = true then
    let t := clear_trace (pop_implementation_discard q).2
    (q.p_buffer.getD q.read_index none :: t.1, t.2)
  else
    ([], (pop_implementation_discard q).2)
termination_by q.current_size
decreasing_by
  unfold pop_implementation_discard at h ⊢
  by_cases h0 : q.current_size = 0
  · simp [h0] at h
  · simp [h0]
    omega

/-- Events recorded by the instrumenting lock pair. -/
inductive LEvent where
  | lockEv
  | unlockEv
deriving DecidableEq, Repr

/-- A lock pair whose only effect is to append an event to a log,
used to observe how often and in which order the injected callables
run. -/
def traceLocks : Locks (List LEvent) :=
  { lock := fun w => w ++ [LEvent.lockEv]
    unlock := fun w => w ++ [LEvent.unlockEv] }

/-- A lock pair that does nothing: the "no-op lock and unlock"
instantiation. -/
def noLocks (W : Type) : Locks W :=
  { lock := id, unlock := id }

/-- Queue states reachable from a freshly constructed queue by any
sequence of core operations.  Every locked operation performs exactly
one core operation on the queue state, so this also covers all states
produced through the locked API. -/
inductive Reachable : Queue α → Prop where
  | init (N : Nat) (h : 0 < N) : Reachable (initial α N)
  | push (q : Queue α) (v : α) : Reachable q →
      Reachable (push_implementation q v).2
  | emplace {γ : Type} (q : Queue α) (ctor : γ → α) (args : γ) :
      Reachable q → Reachable (emplace_implementation q ctor args).2
  | pop (q : Queue α) (out : α) : Reachable q →
      Reachable (pop_implementation q out).2.2
  | pop_discard (q : Queue α) : Reachable q →
      Reachable (pop_implementation_discard q).2
  | clear (q : Queue α) : Reachable q →
      Reachable (clear_from_unlocked q)

/-- Push each value of `vs` in order through `push_implementation`,
collecting the success flags. -/
def push_list (q : Queue α) : List α → List Bool × Queue α
  | [] => ([], q)
  | v :: vs =>
    let r := push_implementation q v
    let t := push_list r.2 vs
    (r.1 :: t.1, t.2)

/-- Pop `n` times through `pop_implementation`, reusing one caller
variable (initially `out`) as the by-reference output and collecting
each call's flag and the variable's value after the call. -/
def pop_n (out : α) : Nat → Queue α → List (Bool × α) × Queue α
  | 0, q => ([], q)
  | n + 1, q =>
    let r := pop_implementation q out
    let t := pop_n r.2.1 n r.2.2
    ((r.1, r.2.1) :: t.1, t.2)

/-- A single call against the queue API, as issued by a driver. -/
inductive QOp (α β : Type) where
  | push (v : α)
  | emplace (ctor : β → α) (args : β)
  | pop
  | pop_discard
  | clear
  | empty
  | full
  | size
  | available

/-- Observable result of one call. -/
inductive QOut (α : Type) where
  | flag (b : Bool)
  | flagVal (b : Bool) (v : α)
  | num (n : Nat)
  | unit
deriving DecidableEq, Repr

/-- Run a call sequence through the `_from_unlocked` API.  `x` is the
caller's reusable element variable, passed by reference to extracting
pops. -/
def run_from_unlocked (q : Queue α) (x : α) :
    List (QOp α β) → List (QOut α) × Queue α × α
  | [] => ([], q, x)
  | QOp.push v :: ops =>
    let r := push_from_unlocked q v
    let t := run_from_unlocked r.2 x ops
    (QOut.flag r.1 :: t.1, t.2)
  | QOp.emplace ctor args :: ops =>
    let r := emplace_from_unlocked q ctor args
    let t := run_from_unlocked r.2 x ops
    (QOut.flag r.1 :: t.1, t.2)
  | QOp.pop :: ops =>
    let r := pop_from_unlocked q x
    let t := run_from_unlocked r.2.2 r.2.1 ops
    (QOut.flagVal r.1 r.2.1 :: t.1, t.2)
  | QOp.pop_discard :: ops =>
    let r := pop_from_unlocked_discard q
    let t := run_from_unlocked r.2 x ops
    (QOut.flag r.1 :: t.1, t.2)
  | QOp.clear :: ops =>
    let t := run_from_unlocked (clear_from_unlocked q) x ops
    (QOut.unit :: t.1, t.2)
  | QOp.empty :: ops =>
    let t := run_from_unlocked q x ops
    (QOut.flag (empty_from_unlocked q) :: t.1, t.2)
  | QOp.full :: ops =>
    let t := run_from_unlocked q x ops
    (QOut.flag (full_from_unlocked q) :: t.1, t.2)
  | QOp.size :: ops =>
    let t := run_from_unlocked q x ops
    (QOut.num (size_from_unlocked q) :: t.1, t.2)
  | QOp.available :: ops =>
    let t := run_from_unlocked q x ops
    (QOut.num (available_from_unlocked q) :: t.1, t.2)

/-- Run the same call sequence through the locked API, threading the
lock world `w`. -/
def run_locked (L : Locks W) (q : Queue α) (x : α) (w : W) :
    List (QOp α β) → List (QOut α) × Queue α × α × W
  | [] => ([], q, x, w)
  | QOp.push v :: ops =>
    let r := iqueue_spsc_locked.push L q w v
    let t := run_locked L r.2.1 x r.2.2 ops
    (QOut.flag r.1 :: t.1, t.2)
  | QOp.emplace ctor args :: ops =>
    let r := iqueue_spsc_locked.emplace L q w ctor args
    let t := run_locked L r.2.1 x r.2.2 ops
    (QOut.flag r.1 :: t.1, t.2)
  | QOp.pop :: ops =>
    let r := iqueue_spsc_locked.pop L q w x
    let t := run_locked L r.2.2.1 r.2.1 r.2.2.2 ops
    (QOut.flagVal r.1 r.2.1 :: t.1, t.2)
  | QOp.pop_discard :: ops =>
    let r := iqueue_spsc_locked.pop_discard L q w
    let t := run_locked L r.2.1 x r.2.2 ops
    (QOut.flag r.1 :: t.1, t.2)
  | QOp.clear :: ops =>
    let r := iqueue_spsc_locked.clear L q w
    let t := run_locked L r.1 x r.2 ops
    (QOut.unit :: t.1, t.2)
  | QOp.empty :: ops =>
    let r := iqueue_spsc_locked.empty L q w
    let t := run_locked L q x r.2 ops
    (QOut.flag r.1 :: t.1, t.2)
  | QOp.full :: ops =>
    let r := iqueue_spsc_locked.full L q w
    let t := run_locked L q x r.2 ops
    (QOut.flag r.1 :: t.1, t.2)
  | QOp.size :: ops =>
    let r := iqueue_spsc_locked.size L q w
    let t := run_locked L q x r.2 ops
    (QOut.num r.1 :: t.1, t.2)
  | QOp.available :: ops =>
    let r := iqueue_spsc_locked.available L q w
    let t := run_locked L q x r.2 ops
    (QOut.num r.1 :: t.1, t.2)

/-! ### Helper lemmas -/

/-- Size strictly decreases across a successful discarding pop; this is
the variant of the `while (pop_implementation())` drain loops. -/
theorem pop_discard_true_size (q : Queue α)
    (h : (pop_implementation_discard q).1 = true) :
    (pop_implementation_discard q).2.current_size < q.current_size := by
  unfold pop_implementation_discard at *
  by_cases h0 : q.current_size = 0
  · simp [h0] at h
  · simp [h0]
    omega

theorem get_next_index_eq (i N : Nat) (h : i < N) :
    get_next_index i N = (i + 1) % N := by
  unfold get_next_index
  by_cases h1 : i + 1 = N
  · simp [h1]
  · have h2 : i + 1 < N := by omega
    simp [h1, Nat.mod_eq_of_lt h2]

theorem get_next_index_lt (i N : Nat) (h : i < N) : get_next_index i N < N := by
  unfold get_next_index
  split <;> omega

theorem getD_set_self (l : List (Option α)) (i : Nat) (a : Option α)
    (h : i < l.length) : (l.set i a).getD i none = a := by
  simp [List.getD_eq_getElem?_getD, List.getElem?_set_self h]

theorem getD_set_ne (l : List (Option α)) (i j : Nat) (a : Option α)
    (h : i ≠ j) : (l.set i a).getD j none = l.getD j none := by
  simp [List.getD_eq_getElem?_getD, List.getElem?_set_ne h]

theorem mod_shift_inj {N r i j : Nat} (hi : i < N) (hj : j < N)
    (h : (r + i) % N = (r + j) % N) : i = j := by
  have h2 : i % N = j % N := Nat.ModEq.add_left_cancel' r h
  rwa [Nat.mod_eq_of_lt hi, Nat.mod_eq_of_lt hj] at h2

theorem WF_initial (α : Type) (N : Nat) (h : 0 < N) : WF (initial α N) := by
  refine ⟨h, by simp [initial], by simp [initial], h, h, by simp [initial], ?_⟩
  intro i hi
  simp [initial] at hi

/-- A successful push: returns true, preserves well-formedness, and
appends the value to the abstract contents. -/
theorem push_implementation_success (q : Queue α) (v : α) (hw : WF q)
    (hnf : q.current_size ≠ q.MAX_SIZE) :
    (push_implementation q v).1 = true ∧
    WF (push_implementation q v).2 ∧
    toList (push_implementation q v).2 = toList q ++ [v] := by
  obtain ⟨pos, blen, sle, wlt, rlt, weq, live⟩ := hw
  have hslt : q.current_size < q.MAX_SIZE := lt_of_le_of_ne sle hnf
  have hne : ∀ i, i < q.current_size →
      q.write_index ≠ (q.read_index + i) % q.MAX_SIZE := by
    intro i hi hcontra
    rw [weq] at hcontra
    have : q.current_size = i :=
      mod_shift_inj hslt (lt_of_lt_of_le hi sle) hcontra
    omega
  simp only [push_implementation, ne_eq, hnf, not_false_eq_true, if_true]
  refine ⟨trivial, ⟨pos, ?_, ?_, ?_, ?_, ?_, ?_⟩, ?_⟩
  · show (q.p_buffer.set q.write_index (some v)).length = q.MAX_SIZE
    simpa using blen
  · show q.current_size + 1 ≤ q.MAX_SIZE
    omega
  · show get_next_index q.write_index q.MAX_SIZE < q.MAX_SIZE
    exact get_next_index_lt _ _ wlt
  · show q.read_index < q.MAX_SIZE
    exact rlt
  · show get_next_index q.write_index q.MAX_SIZE =
      (q.read_index + (q.current_size + 1)) % q.MAX_SIZE
    rw [get_next_index_eq _ _ wlt, weq, Nat.mod_add_mod, Nat.add_assoc]
  · intro i hi
    have hi2 : i < q.current_size + 1 := hi
    show ((q.p_buffer.set q.write_index (some v)).getD
      ((q.read_index + i) % q.MAX_SIZE) none).isSome
    rcases Nat.lt_or_ge i q.current_size with hlt | hge
    · rw [getD_set_ne _ _ _ _ (hne i hlt)]
      exact live i hlt
    · have hieq : i = q.current_size := by omega
      subst hieq
      rw [← weq, getD_set_self _ _ _ (by omega)]
      rfl
  · show toList
      { q with
        p_buffer := q.p_buffer.set q.write_index (some v)
        write_index := get_next_index q.write_index q.MAX_SIZE
        current_size := q.current_size + 1 } = toList q ++ [v]
    unfold toList
    simp only [List.range_succ, List.filterMap_append]
    congr 1
    · apply List.filterMap_congr
      intro i hi
      rw [List.mem_range] at hi
      exact getD_set_ne _ _ _ _ (hne i hi)
    · rw [List.filterMap_cons, ← weq, getD_set_self _ _ _ (by omega)]
      rfl

/-- A successful pop: returns true, yields the oldest element (the head
of the abstract contents, independent of the incoming `out`), preserves
well-formedness, and drops the head. -/
theorem pop_implementation_success (q : Queue α) (out : α) (hw : WF q)
    (hne : q.current_size ≠ 0) :
    (pop_implementation q out).1 = true ∧
    q.p_buffer.getD q.read_index none = some ((pop_implementation q out).2.1) ∧
    WF (pop_implementation q out).2.2 ∧
    toList q = (pop_implementation q out).2.1 ::
      toList (pop_implementation q out).2.2 := by
  obtain ⟨pos, blen, sle, wlt, rlt, weq, live⟩ := hw
  have hr0 : (q.read_index + 0) % q.MAX_SIZE = q.read_index := by
    rw [Nat.add_zero, Nat.mod_eq_of_lt rlt]
  have hsome := live 0 (Nat.pos_of_ne_zero hne)
  rw [hr0] at hsome
  obtain ⟨v, hv⟩ := Option.isSome_iff_exists.mp hsome
  have hidx : ∀ i, i + 1 < q.MAX_SIZE →
      (get_next_index q.read_index q.MAX_SIZE + i) % q.MAX_SIZE =
        (q.read_index + (i + 1)) % q.MAX_SIZE := by
    intro i hi
    rw [get_next_index_eq _ _ rlt, Nat.mod_add_mod]
    congr 1
    omega
  have hner : ∀ i, i + 1 < q.MAX_SIZE →
      q.read_index ≠ (q.read_index + (i + 1)) % q.MAX_SIZE := by
    intro i hi hcontra
    have h2 : (q.read_index + 0) % q.MAX_SIZE =
        (q.read_index + (i + 1)) % q.MAX_SIZE := by
      rw [hr0]
      exact hcontra
    have : 0 = i + 1 := mod_shift_inj (by omega) hi h2
    omega
  simp only [pop_implementation, hne, ite_false]
  refine ⟨trivial, ?_, ⟨pos, ?_, ?_, ?_, ?_, ?_, ?_⟩, ?_⟩
  · show q.p_buffer.getD q.read_index none =
      some ((q.p_buffer.getD q.read_index none).getD out)
    rw [hv]
    rfl
  · show (q.p_buffer.set q.read_index none).length = q.MAX_SIZE
    simpa using blen
  · show q.current_size - 1 ≤ q.MAX_SIZE
    omega
  · show q.write_index < q.MAX_SIZE
    exact wlt
  · show get_next_index q.read_index q.MAX_SIZE < q.MAX_SIZE
    exact get_next_index_lt _ _ rlt
  · show q.write_index =
      (get_next_index q.read_index q.MAX_SIZE + (q.current_size - 1)) %
        q.MAX_SIZE
    rw [weq, get_next_index_eq _ _ rlt, Nat.mod_add_mod]
    congr 1
    omega
  · intro i hi
    have hi2 : i < q.current_size - 1 := hi
    have hlt : i + 1 < q.MAX_SIZE := by omega
    show ((q.p_buffer.set q.read_index none).getD
      ((get_next_index q.read_index q.MAX_SIZE + i) % q.MAX_SIZE)
        none).isSome
    rw [hidx i hlt, getD_set_ne _ _ _ _ (hner i hlt)]
    exact live (i + 1) (by omega)
  · show toList q = (q.p_buffer.getD q.read_index none).getD out ::
      toList
        { q with
          p_buffer := q.p_buffer.set q.read_index none
          read_index := get_next_index q.read_index q.MAX_SIZE
          current_size := q.current_size - 1 }
    obtain ⟨t, ht⟩ : ∃ t, q.current_size = t + 1 :=
      ⟨q.current_size - 1, by omega⟩
    unfold toList
    simp only [ht, Nat.add_sub_cancel, List.range_succ_eq_map,
      List.filterMap_cons, hr0, hv, Option.getD_some, List.filterMap_map]
    congr 1
    apply List.filterMap_congr
    intro i hi
    rw [List.mem_range] at hi
    have hlt : i + 1 < q.MAX_SIZE := by omega
    rw [Function.comp_apply, hidx i hlt, getD_set_ne _ _ _ _ (hner i hlt)]

/-- The discarding pop performs exactly the state change of the
extracting pop and returns the same flag. -/
theorem pop_discard_eq (q : Queue α) (out : α) :
    pop_implementation_discard q =
      ((pop_implementation q out).1, (pop_implementation q out).2.2) := by
  unfold pop_implementation_discard pop_implementation
  by_cases h : q.current_size = 0 <;> simp [h]

/-- `emplace_implementation` is `push_implementation` of the
constructed value. -/
theorem emplace_eq_push (q : Queue α) (ctor : β → α) (args : β) :
    emplace_implementation q ctor args = push_implementation q (ctor args) :=
  rfl

theorem push_full (q : Queue α) (v : α) (hf : q.current_size = q.MAX_SIZE) :
    push_implementation q v = (false, q) := by
  unfold push_implementation
  simp [hf]

theorem pop_empty (q : Queue α) (out : α) (hz : q.current_size = 0) :
    pop_implementation q out = (false, out, q) := by
  unfold pop_implementation
  simp [hz]

theorem pop_discard_empty (q : Queue α) (hz : q.current_size = 0) :
    pop_implementation_discard q = (false, q) := by
  unfold pop_implementation_discard
  simp [hz]

/-- Variant of `pop_implementation_success` for the discarding form. -/
theorem pop_discard_success (q : Queue α) (hw : WF q)
    (hne : q.current_size ≠ 0) :
    (pop_implementation_discard q).1 = true ∧
    WF (pop_implementation_discard q).2 ∧
    ∃ v, q.p_buffer.getD q.read_index none = some v ∧
      toList q = v :: toList (pop_implementation_discard q).2 := by
  have hr0 : (q.read_index + 0) % q.MAX_SIZE = q.read_index := by
    rw [Nat.add_zero, Nat.mod_eq_of_lt hw.ri_lt]
  have hsome := hw.live 0 (Nat.pos_of_ne_zero hne)
  rw [hr0] at hsome
  obtain ⟨v, hv⟩ := Option.isSome_iff_exists.mp hsome
  have h := pop_implementation_success q v hw hne
  have hval : (pop_implementation q v).2.1 = v := by
    have h2 := h.2.1
    rw [hv] at h2
    exact (Option.some.inj h2).symm
  refine ⟨?_, ?_, v, hv, ?_⟩
  · rw [pop_discard_eq q v]
    exact h.1
  · rw [pop_discard_eq q v]
    exact h.2.2.1
  · rw [pop_discard_eq q v]
    show toList q = v :: toList (pop_implementation q v).2.2
    have h3 := h.2.2.2
    rw [hval] at h3
    exact h3

theorem clear_trace_snd (q : Queue α) :
    (clear_trace q).2 = clear_from_unlocked q := by
  unfold clear_trace clear_from_unlocked
  by_cases h : (pop_implementation_discard q).1 = true
  · rw [dif_pos h, dif_pos h]
    exact clear_trace_snd (pop_implementation_discard q).2
  · rw [dif_neg h, dif_neg h]
termination_by q.current_size
decreasing_by exact pop_discard_true_size q h

/-- Draining a well-formed queue destructs exactly the live elements,
oldest first, and ends well-formed and empty. -/
theorem clear_trace_spec (q : Queue α) (hw : WF q) :
    (clear_trace q).1 = (toList q).map some ∧
    WF (clear_trace q).2 ∧
    (clear_trace q).2.current_size = 0 := by
  by_cases hz : q.current_size = 0
  · have hfail : ¬((pop_implementation_discard q).1 = true) := by
      rw [pop_discard_empty q hz]
      simp
    have hlist : toList q = [] := by
      unfold toList
      rw [hz]
      simp
    unfold clear_trace
    rw [dif_neg hfail, pop_discard_empty q hz]
    exact ⟨by simp [hlist], hw, hz⟩
  · obtain ⟨h1, h2, v, hv, h3⟩ := pop_discard_success q hw hz
    have ih := clear_trace_spec (pop_implementation_discard q).2 h2
    unfold clear_trace
    rw [dif_pos h1]
    refine ⟨?_, ih.2.1, ih.2.2⟩
    show q.p_buffer.getD q.read_index none ::
      (clear_trace (pop_implementation_discard q).2).1 =
        (toList q).map some
    rw [hv, ih.1, h3]
    simp
termination_by q.current_size
decreasing_by exact pop_discard_true_size q h1

/-- Well-formedness and emptiness of the uninstrumented drain. -/
theorem clear_from_unlocked_spec (q : Queue α) (hw : WF q) :
    WF (clear_from_unlocked q) ∧
    (clear_from_unlocked q).current_size = 0 := by
  have h := clear_trace_spec q hw
  rw [clear_trace_snd] at h
  exact ⟨h.2.1, h.2.2⟩


theorem WF_push (q : Queue α) (v : α) (hw : WF q) :
    WF (push_implementation q v).2 := by
  by_cases h : q.current_size = q.MAX_SIZE
  · rw [push_full q v h]
    exact hw
  · exact (push_implementation_success q v hw h).2.1

theorem WF_pop (q : Queue α) (out : α) (hw : WF q) :
    WF (pop_implementation q out).2.2 := by
  by_cases h : q.current_size = 0
  · rw [pop_empty q out h]
    exact hw
  · exact (pop_implementation_success q out hw h).2.2.1

theorem WF_pop_discard (q : Queue α) (hw : WF q) :
    WF (pop_implementation_discard q).2 := by
  by_cases h : q.current_size = 0
  · rw [pop_discard_empty q h]
    exact hw
  · exact (pop_discard_success q hw h).2.1

/-- Every reachable state is well-formed. -/
theorem Reachable.wf {q : Queue α} (h : Reachable q) : WF q := by
  induction h with
  | init N hN => exact WF_initial α N hN
  | push q v _ ih => exact WF_push q v ih
  | emplace q ctor args _ ih =>
    rw [emplace_eq_push]
    exact WF_push q _ ih
  | pop q out _ ih => exact WF_pop q out ih
  | pop_discard q _ ih => exact WF_pop_discard q ih
  | clear q _ ih => exact (clear_from_unlocked_spec q ih).1

theorem push_fields (q : Queue α) (v : α) (h : q.current_size ≠ q.MAX_SIZE) :
    (push_implementation q v).1 = true ∧
    (push_implementation q v).2.current_size = q.current_size + 1 ∧
    (push_implementation q v).2.MAX_SIZE = q.MAX_SIZE ∧
    (push_implementation q v).2.read_index = q.read_index ∧
    (push_implementation q v).2.write_index =
      get_next_index q.write_index q.MAX_SIZE := by
  simp [push_implementation, h]

theorem pop_fields (q : Queue α) (out : α) (h : q.current_size ≠ 0) :
    (pop_implementation q out).1 = true ∧
    (pop_implementation q out).2.2.current_size = q.current_size - 1 ∧
    (pop_implementation q out).2.2.MAX_SIZE = q.MAX_SIZE ∧
    (pop_implementation q out).2.2.write_index = q.write_index ∧
    (pop_implementation q out).2.2.read_index =
      get_next_index q.read_index q.MAX_SIZE := by
  simp [pop_implementation, h]

theorem length_filterMap_of_isSome {γ : Type} {f : γ → Option α}
    (l : List γ) (h : ∀ x ∈ l, (f x).isSome) :
    (l.filterMap f).length = l.length := by
  induction l with
  | nil => simp
  | cons a l ih =>
    obtain ⟨v, hv⟩ := Option.isSome_iff_exists.mp (h a (by simp))
    rw [List.filterMap_cons_some hv]
    simp only [List.length_cons]
    rw [ih (fun x hx => h x (by simp [hx]))]

/-- On a well-formed state the abstract contents have exactly
`current_size` elements. -/
theorem toList_length (q : Queue α) (hw : WF q) :
    (toList q).length = q.current_size := by
  unfold toList
  rw [length_filterMap_of_isSome]
  · exact List.length_range q.current_size
  · intro i hi
    rw [List.mem_range] at hi
    exact hw.live i hi

/-- Pushing a whole list into sufficient free space succeeds call by
call and appends the list to the abstract contents. -/
theorem push_list_success (vs : List α) (q : Queue α) (hw : WF q)
    (hlen : q.current_size + vs.length ≤ q.MAX_SIZE) :
    (push_list q vs).1 = List.replicate vs.length true ∧
    WF (push_list q vs).2 ∧
    toList (push_list q vs).2 = toList q ++ vs ∧
    (push_list q vs).2.current_size = q.current_size + vs.length := by
  induction vs generalizing q with
  | nil => simpa [push_list] using hw
  | cons v vs ih =>
    have hnf : q.current_size ≠ q.MAX_SIZE := by
      simp only [List.length_cons] at hlen
      omega
    have hs := push_implementation_success q v hw hnf
    have hf := push_fields q v hnf
    have hlen2 : (push_implementation q v).2.current_size + vs.length ≤
        (push_implementation q v).2.MAX_SIZE := by
      rw [hf.2.1, hf.2.2.1]
      simp only [List.length_cons] at hlen
      omega
    have ihq := ih (push_implementation q v).2 hs.2.1 hlen2
    unfold push_list
    refine ⟨?_, ihq.2.1, ?_, ?_⟩
    · simp only [List.length_cons, List.replicate_succ]
      rw [hs.1, ihq.1]
    · show toList (push_list (push_implementation q v).2 vs).2 =
        toList q ++ v :: vs
      rw [ihq.2.2.1, hs.2.2]
      simp
    · show (push_list (push_implementation q v).2 vs).2.current_size =
        q.current_size + (v :: vs).length
      rw [ihq.2.2.2, hf.2.1]
      simp only [List.length_cons]
      omega

/-- Popping at most `current_size` times succeeds call by call and
yields the abstract contents in order, oldest first. -/
theorem pop_n_success (n : Nat) (q : Queue α) (out : α) (hw : WF q)
    (hn : n ≤ q.current_size) :
    (pop_n out n q).1 = ((toList q).take n).map (fun v => (true, v)) ∧
    WF (pop_n out n q).2 ∧
    toList (pop_n out n q).2 = (toList q).drop n := by
  induction n generalizing q out with
  | zero => simpa [pop_n] using hw
  | succ n ih =>
    have hne : q.current_size ≠ 0 := by omega
    have hs := pop_implementation_success q out hw hne
    have hf := pop_fields q out hne
    have hn2 : n ≤ (pop_implementation q out).2.2.current_size := by
      rw [hf.2.1]
      omega
    have ihq := ih (pop_implementation q out).2.2 (pop_implementation q out).2.1
      hs.2.2.1 hn2
    unfold pop_n
    refine ⟨?_, ihq.2.1, ?_⟩
    · show ((pop_implementation q out).1, (pop_implementation q out).2.1) ::
        (pop_n (pop_implementation q out).2.1 n (pop_implementation q out).2.2).1 =
          ((toList q).take (n + 1)).map (fun v => (true, v))
      rw [hs.2.2.2]
      simp only [List.take_succ_cons, List.map_cons]
      rw [hs.1, ihq.1]
    · show toList (pop_n (pop_implementation q out).2.1 n
        (pop_implementation q out).2.2).2 = (toList q).drop (n + 1)
      rw [ihq.2.2, hs.2.2.2]
      simp


theorem noLocks_lock (W : Type) (w : W) : (noLocks W).lock w = w :=
  rfl

theorem noLocks_unlock (W : Type) (w : W) : (noLocks W).unlock w = w :=
  rfl

/-! ### Claim theorems -/

/-- C1: on any state whose write index is in range (true of every
reachable state), `push` / `push_from_unlocked` return false and change
nothing when `current_size` equals `MAX_SIZE`; otherwise they construct
the value into `storage[write_index]`, advance `write_index` to
`(write_index + 1) mod MAX_SIZE`, increment `current_size`, and return
true.  `emplace` behaves identically except that the stored element is
built in place from the constructor arguments, with the same full-queue
failure rule. -/
theorem C1_push_emplace_spec (q : Queue α) (v : α) (ctor : β → α)
    (args : β) (hwi : q.write_index < q.MAX_SIZE) :
    (q.current_size = q.MAX_SIZE →
      push_implementation q v = (false, q) ∧
      push_from_unlocked q v = (false, q) ∧
      emplace_implementation q ctor args = (false, q)) ∧
    (q.current_size ≠ q.MAX_SIZE →
      push_implementation q v =
        (true,
          { q with
            p_buffer := q.p_buffer.set q.write_index (some v)
            write_index := (q.write_index + 1) % q.MAX_SIZE
            current_size := q.current_size + 1 }) ∧
      push_from_unlocked q v = push_implementation q v ∧
      emplace_implementation q ctor args =
        push_implementation q (ctor args)) := by
  constructor
  · intro hf
    refine ⟨push_full q v hf, push_full q v hf, ?_⟩
    rw [emplace_eq_push]
    exact push_full q (ctor args) hf
  · intro hnf
    refine ⟨?_, rfl, rfl⟩
    unfold push_implementation
    rw [if_pos hnf, get_next_index_eq _ _ hwi]

/-- Witness for C1 at the freshly constructed one-slot queue. -/
theorem C1_push_emplace_spec_witness :
    (initial Nat 1).write_index < (initial Nat 1).MAX_SIZE ∧
    (((initial Nat 1).current_size = (initial Nat 1).MAX_SIZE →
      push_implementation (initial Nat 1) 5 = (false, initial Nat 1) ∧
      push_from_unlocked (initial Nat 1) 5 = (false, initial Nat 1) ∧
      emplace_implementation (initial Nat 1) (fun n => n + 1) 4 =
        (false, initial Nat 1)) ∧
    ((initial Nat 1).current_size ≠ (initial Nat 1).MAX_SIZE →
      push_implementation (initial Nat 1) 5 =
        (true,
          { initial Nat 1 with
            p_buffer :=
              (initial Nat 1).p_buffer.set (initial Nat 1).write_index
                (some 5)
            write_index :=
              ((initial Nat 1).write_index + 1) % (initial Nat 1).MAX_SIZE
            current_size := (initial Nat 1).current_size + 1 }) ∧
      push_from_unlocked (initial Nat 1) 5 =
        push_implementation (initial Nat 1) 5 ∧
      emplace_implementation (initial Nat 1) (fun n => n + 1) 4 =
        push_implementation (initial Nat 1) ((fun n => n + 1) 4))) :=
  ⟨by decide,
    C1_push_emplace_spec (initial Nat 1) 5 (fun n => n + 1) 4 (by decide)⟩

/-- C2: on any state whose read index is in range (true of every
reachable state), `pop` / `pop_from_unlocked` return false with the
output variable unmodified when `current_size` is zero; otherwise they
return true with the content of `storage[read_index]` in the output
variable, destruct that slot, advance `read_index` to
`(read_index + 1) mod MAX_SIZE`, and decrement `current_size`.  The
discarding `pop()` performs the identical state change, only without
exposing the value. -/
theorem C2_pop_spec (q : Queue α) (out : α)
    (hri : q.read_index < q.MAX_SIZE) :
    (q.current_size = 0 →
      pop_implementation q out = (false, out, q) ∧
      pop_from_unlocked q out = (false, out, q) ∧
      pop_implementation_discard q = (false, q)) ∧
    (q.current_size ≠ 0 →
      pop_implementation q out =
        (true, (q.p_buffer.getD q.read_index none).getD out,
          { q with
            p_buffer := q.p_buffer.set q.read_index none
            read_index := (q.read_index + 1) % q.MAX_SIZE
            current_size := q.current_size - 1 }) ∧
      (∀ x, q.p_buffer.getD q.read_index none = some x →
        (pop_implementation q out).2.1 = x) ∧
      pop_from_unlocked q out = pop_implementation q out ∧
      pop_implementation_discard q =
        ((pop_implementation q out).1, (pop_implementation q out).2.2)) := by
  constructor
  · intro hz
    exact ⟨pop_empty q out hz, pop_empty q out hz, pop_discard_empty q hz⟩
  · intro hne
    refine ⟨?_, ?_, rfl, pop_discard_eq q out⟩
    · unfold pop_implementation
      rw [if_neg hne, get_next_index_eq _ _ hri]
    · intro x hx
      rw [List.getD_eq_getElem?_getD] at hx
      simp [pop_implementation, hne, hx]

/-- Witness for C2 at a one-slot queue holding one element. -/
theorem C2_pop_spec_witness :
    (push_implementation (initial Nat 1) 7).2.read_index <
      (push_implementation (initial Nat 1) 7).2.MAX_SIZE ∧
    (((push_implementation (initial Nat 1) 7).2.current_size = 0 →
      pop_implementation (push_implementation (initial Nat 1) 7).2 0 =
        (false, 0, (push_implementation (initial Nat 1) 7).2) ∧
      pop_from_unlocked (push_implementation (initial Nat 1) 7).2 0 =
        (false, 0, (push_implementation (initial Nat 1) 7).2) ∧
      pop_implementation_discard (push_implementation (initial Nat 1) 7).2 =
        (false, (push_implementation (initial Nat 1) 7).2)) ∧
    ((push_implementation (initial Nat 1) 7).2.current_size ≠ 0 →
      pop_implementation (push_implementation (initial Nat 1) 7).2 0 =
        (true,
          ((push_implementation (initial Nat 1) 7).2.p_buffer.getD
            (push_implementation (initial Nat 1) 7).2.read_index none).getD 0,
          { (push_implementation (initial Nat 1) 7).2 with
            p_buffer :=
              (push_implementation (initial Nat 1) 7).2.p_buffer.set
                (push_implementation (initial Nat 1) 7).2.read_index none
            read_index :=
              ((push_implementation (initial Nat 1) 7).2.read_index + 1) %
                (push_implementation (initial Nat 1) 7).2.MAX_SIZE
            current_size :=
              (push_implementation (initial Nat 1) 7).2.current_size - 1 }) ∧
      (∀ x,
        (push_implementation (initial Nat 1) 7).2.p_buffer.getD
          (push_implementation (initial Nat 1) 7).2.read_index none = some x →
        (pop_implementation (push_implementation (initial Nat 1) 7).2 0).2.1 =
          x) ∧
      pop_from_unlocked (push_implementation (initial Nat 1) 7).2 0 =
        pop_implementation (push_implementation (initial Nat 1) 7).2 0 ∧
      pop_implementation_discard (push_implementation (initial Nat 1) 7).2 =
        ((pop_implementation (push_implementation (initial Nat 1) 7).2 0).1,
          (pop_implementation (push_implementation (initial Nat 1) 7).2
            0).2.2))) :=
  ⟨by decide, C2_pop_spec (push_implementation (initial Nat 1) 7).2 0
    (by decide)⟩


/-- C3: FIFO round trip from any reachable state with `k` free slots:
pushing any `k` values without interleaved pops succeeds call by call,
and then popping until empty succeeds call by call and yields first the
elements that were already enqueued, in their original order, then the
pushed values in push order. -/
theorem C3_fifo_round_trip (q : Queue α) (vs : List α) (out : α)
    (hr : Reachable q) (hfree : vs.length = available_from_unlocked q) :
    (push_list q vs).1 = List.replicate vs.length true ∧
    (pop_n out (size_from_unlocked q + vs.length) (push_list q vs).2).1 =
      (toList q ++ vs).map (fun v => (true, v)) ∧
    toList (pop_n out (size_from_unlocked q + vs.length)
      (push_list q vs).2).2 = [] := by
  have hw := hr.wf
  have hlen : q.current_size + vs.length ≤ q.MAX_SIZE := by
    unfold available_from_unlocked at hfree
    have := hw.size_le
    omega
  obtain ⟨hflags, hw2, hlist, hsize⟩ := push_list_success vs q hw hlen
  have hn : size_from_unlocked q + vs.length ≤
      (push_list q vs).2.current_size := by
    rw [hsize]
    exact Nat.le_refl _
  obtain ⟨hvals, hw3, hdrop⟩ :=
    pop_n_success (size_from_unlocked q + vs.length) (push_list q vs).2
      out hw2 hn
  have hlen2 : (toList (push_list q vs).2).length =
      size_from_unlocked q + vs.length := by
    rw [hlist, List.length_append, toList_length q hw]
    rfl
  refine ⟨hflags, ?_, ?_⟩
  · rw [hvals, ← hlen2, List.take_length, hlist]
  · rw [hdrop, ← hlen2, List.drop_length]

/-- Witness for C3: a two-slot queue holding one element, pushing one
more value, then draining. -/
theorem C3_fifo_round_trip_witness :
    (2 : Nat) = 2 ∧
    (push_list (push_implementation (initial Nat 3) 9).2 [5, 6]).1 =
      List.replicate ([5, 6] : List Nat).length true ∧
    (pop_n 0 (size_from_unlocked (push_implementation (initial Nat 3) 9).2 +
        ([5, 6] : List Nat).length)
      (push_list (push_implementation (initial Nat 3) 9).2 [5, 6]).2).1 =
      (toList (push_implementation (initial Nat 3) 9).2 ++ [5, 6]).map
        (fun v => (true, v)) :=
  ⟨rfl,
    (C3_fifo_round_trip (push_implementation (initial Nat 3) 9).2 [5, 6] 0
      (Reachable.push (initial Nat 3) 9 (Reachable.init 3 (by decide)))
      (by decide)).1,
    (C3_fifo_round_trip (push_implementation (initial Nat 3) 9).2 [5, 6] 0
      (Reachable.push (initial Nat 3) 9 (Reachable.init 3 (by decide)))
      (by decide)).2.1⟩

/-- C4: push and emplace on a full queue, and pop on an empty queue,
return false and leave the whole state (and the output variable)
untouched, so repeating the failing call any number of times keeps
returning false without altering size(). -/
theorem C4_failure_atomicity (qf qe : Queue α) (v out : α) (ctor : β → α)
    (args : β) (n : Nat) (hf : qf.current_size = qf.MAX_SIZE)
    (he : qe.current_size = 0) :
    push_implementation qf v = (false, qf) ∧
    push_from_unlocked qf v = (false, qf) ∧
    emplace_implementation qf ctor args = (false, qf) ∧
    pop_implementation qe out = (false, out, qe) ∧
    pop_from_unlocked qe out = (false, out, qe) ∧
    pop_implementation_discard qe = (false, qe) ∧
    (fun s => (push_implementation s v).2)^[n] qf = qf ∧
    (fun s => (pop_implementation s out).2.2)^[n] qe = qe ∧
    size_from_unlocked ((fun s => (push_implementation s v).2)^[n] qf) =
      size_from_unlocked qf ∧
    size_from_unlocked ((fun s => (pop_implementation s out).2.2)^[n] qe) =
      size_from_unlocked qe ∧
    (push_implementation ((fun s => (push_implementation s v).2)^[n] qf)
      v).1 = false ∧
    (pop_implementation ((fun s => (pop_implementation s out).2.2)^[n] qe)
      out).1 = false := by
  have hp : (push_implementation qf v).2 = qf := by
    rw [push_full qf v hf]
  have hq : (pop_implementation qe out).2.2 = qe := by
    rw [pop_empty qe out he]
  have hitp : (fun s => (push_implementation s v).2)^[n] qf = qf :=
    Function.iterate_fixed hp n
  have hitq : (fun s => (pop_implementation s out).2.2)^[n] qe = qe :=
    Function.iterate_fixed hq n
  refine ⟨push_full qf v hf, push_full qf v hf,
    by rw [emplace_eq_push]; exact push_full qf (ctor args) hf,
    pop_empty qe out he, pop_empty qe out he, pop_discard_empty qe he,
    hitp, hitq, by rw [hitp], by rw [hitq], ?_, ?_⟩
  · rw [hitp, push_full qf v hf]
  · rw [hitq, pop_empty qe out he]

/-- Witness for C4: full one-slot queue and empty one-slot queue. -/
theorem C4_failure_atomicity_witness :
    (push_implementation (initial Nat 1) 3).2.current_size =
      (push_implementation (initial Nat 1) 3).2.MAX_SIZE ∧
    (initial Nat 1).current_size = 0 ∧
    push_implementation (push_implementation (initial Nat 1) 3).2 9 =
      (false, (push_implementation (initial Nat 1) 3).2) ∧
    pop_implementation (initial Nat 1) 0 = (false, 0, initial Nat 1) :=
  ⟨by decide, rfl,
    (C4_failure_atomicity (push_implementation (initial Nat 1) 3).2
      (initial Nat 1) 9 0 (fun n : Nat => n) 0 2 (by decide) rfl).1,
    (C4_failure_atomicity (push_implementation (initial Nat 1) 3).2
      (initial Nat 1) 9 0 (fun n : Nat => n) 0 2 (by decide)
      rfl).2.2.2.1⟩

/-- C5: every locked operation executes exactly lock(); core operation;
unlock(); and returns the core's result, with lock and unlock each
applied exactly once per call, in that order, even when the core
reports failure; clear() holds its single bracket around the whole
drain loop.  With the event-logging lock pair the log gains exactly
[lockEv, unlockEv] per call. -/
theorem C5_locking_discipline (L : Locks W) (q : Queue α) (w : W)
    (v out : α) (ctor : β → α) (args : β) (tw : List LEvent) :
    iqueue_spsc_locked.push L q w v =
      ((push_implementation q v).1, (push_implementation q v).2,
        L.unlock (L.lock w)) ∧
    iqueue_spsc_locked.emplace L q w ctor args =
      ((emplace_implementation q ctor args).1,
        (emplace_implementation q ctor args).2, L.unlock (L.lock w)) ∧
    iqueue_spsc_locked.pop L q w out =
      ((pop_implementation q out).1, (pop_implementation q out).2.1,
        (pop_implementation q out).2.2, L.unlock (L.lock w)) ∧
    iqueue_spsc_locked.pop_discard L q w =
      ((pop_implementation_discard q).1, (pop_implementation_discard q).2,
        L.unlock (L.lock w)) ∧
    iqueue_spsc_locked.clear L q w =
      (clear_from_unlocked q, L.unlock (L.lock w)) ∧
    iqueue_spsc_locked.empty L q w =
      (empty_from_unlocked q, L.unlock (L.lock w)) ∧
    iqueue_spsc_locked.full L q w =
      (full_from_unlocked q, L.unlock (L.lock w)) ∧
    iqueue_spsc_locked.size L q w =
      (size_from_unlocked q, L.unlock (L.lock w)) ∧
    iqueue_spsc_locked.available L q w =
      (available_from_unlocked q, L.unlock (L.lock w)) ∧
    (iqueue_spsc_locked.push traceLocks q tw v).2.2 =
      tw ++ [LEvent.lockEv, LEvent.unlockEv] ∧
    (iqueue_spsc_locked.pop traceLocks q tw out).2.2.2 =
      tw ++ [LEvent.lockEv, LEvent.unlockEv] ∧
    (iqueue_spsc_locked.clear traceLocks q tw).2 =
      tw ++ [LEvent.lockEv, LEvent.unlockEv] := by
  refine ⟨rfl, rfl, rfl, rfl, rfl, rfl, rfl, rfl, rfl, ?_, ?_, ?_⟩ <;>
    simp [iqueue_spsc_locked.push, iqueue_spsc_locked.pop,
      iqueue_spsc_locked.clear, traceLocks]

/-- C6: the drain loop is total (terminates on every state); on a
reachable state it leaves size() == 0 and destructs exactly the
previously live elements, oldest first, each exactly once (the
instrumented destruction trace equals the abstract contents, one entry
per live element); the locked clear() performs this drain, and the
destructor of queue_spsc_locked invokes the locked clear(). -/
theorem C6_clear_drains (q : Queue α) (L : Locks W) (w : W)
    (hr : Reachable q) :
    size_from_unlocked (clear_from_unlocked q) = 0 ∧
    (clear_trace q).2 = clear_from_unlocked q ∧
    (clear_trace q).1 = (toList q).map some ∧
    ((clear_trace q).1).length = size_from_unlocked q ∧
    (iqueue_spsc_locked.clear L q w).1 = clear_from_unlocked q ∧
    queue_spsc_locked_destructor L q w = iqueue_spsc_locked.clear L q w := by
  have hw := hr.wf
  have h := clear_trace_spec q hw
  refine ⟨(clear_from_unlocked_spec q hw).2, clear_trace_snd q, h.1, ?_,
    rfl, rfl⟩
  rw [h.1, List.length_map, toList_length q hw]
  rfl

/-- Witness for C6: draining a two-slot queue holding one element. -/
theorem C6_clear_drains_witness :
    size_from_unlocked
      (clear_from_unlocked (push_implementation (initial Nat 2) 5).2) = 0 ∧
    (clear_trace (push_implementation (initial Nat 2) 5).2).1 =
      (toList (push_implementation (initial Nat 2) 5).2).map some :=
  ⟨(C6_clear_drains (push_implementation (initial Nat 2) 5).2 traceLocks []
      (Reachable.push (initial Nat 2) 5 (Reachable.init 2 (by decide)))).1,
    (C6_clear_drains (push_implementation (initial Nat 2) 5).2 traceLocks []
      (Reachable.push (initial Nat 2) 5
        (Reachable.init 2 (by decide)))).2.2.1⟩

/-- C7: in every reachable state, size() is between 0 and capacity()
(sizes are naturals, so 0 ≤ size() holds by typing), full() holds
exactly when size() equals capacity(), and empty() holds exactly when
size() is zero — for both the locked and the _from_unlocked query
variants. -/
theorem C7_size_full_empty (q : Queue α) (L : Locks W) (w : W)
    (hr : Reachable q) :
    size_from_unlocked q ≤ capacity q ∧
    (full_from_unlocked q = true ↔ size_from_unlocked q = capacity q) ∧
    (empty_from_unlocked q = true ↔ size_from_unlocked q = 0) ∧
    (iqueue_spsc_locked.size L q w).1 = size_from_unlocked q ∧
    ((iqueue_spsc_locked.full L q w).1 = true ↔
      size_from_unlocked q = capacity q) ∧
    ((iqueue_spsc_locked.empty L q w).1 = true ↔
      size_from_unlocked q = 0) := by
  refine ⟨hr.wf.size_le, ?_, ?_, rfl, ?_, ?_⟩ <;>
    simp [full_from_unlocked, empty_from_unlocked, size_from_unlocked,
      capacity, iqueue_spsc_locked.full, iqueue_spsc_locked.empty]

/-- Witness for C7 at the freshly constructed two-slot queue. -/
theorem C7_size_full_empty_witness :
    size_from_unlocked (initial Nat 2) ≤ capacity (initial Nat 2) ∧
    (empty_from_unlocked (initial Nat 2) = true ↔
      size_from_unlocked (initial Nat 2) = 0) :=
  ⟨(C7_size_full_empty (initial Nat 2) (noLocks Nat) 0
      (Reachable.init 2 (by decide))).1,
    (C7_size_full_empty (initial Nat 2) (noLocks Nat) 0
      (Reachable.init 2 (by decide))).2.2.1⟩

/-- C8: in every reachable state both indices lie in [0, MAX_SIZE); a
successful push advances write_index by exactly one position modulo
MAX_SIZE and leaves read_index alone, a successful pop advances
read_index by exactly one position modulo MAX_SIZE and leaves
write_index alone, a failed operation changes nothing; and
get_next_index(i, N) = (i + 1) mod N for every i < N. -/
theorem C8_index_advancement (q : Queue α) (v out : α) (i N : Nat)
    (hr : Reachable q) (hi : i < N) :
    q.write_index < q.MAX_SIZE ∧
    q.read_index < q.MAX_SIZE ∧
    ((push_implementation q v).1 = true →
      (push_implementation q v).2.write_index =
        (q.write_index + 1) % q.MAX_SIZE ∧
      (push_implementation q v).2.read_index = q.read_index) ∧
    ((push_implementation q v).1 = false →
      (push_implementation q v).2 = q) ∧
    ((pop_implementation q out).1 = true →
      (pop_implementation q out).2.2.read_index =
        (q.read_index + 1) % q.MAX_SIZE ∧
      (pop_implementation q out).2.2.write_index = q.write_index) ∧
    ((pop_implementation q out).1 = false →
      (pop_implementation q out).2.2 = q) ∧
    get_next_index i N = (i + 1) % N := by
  refine ⟨hr.wf.wi_lt, hr.wf.ri_lt, ?_, ?_, ?_, ?_,
    get_next_index_eq i N hi⟩
  · intro ht
    by_cases h : q.current_size = q.MAX_SIZE
    · rw [push_full q v h] at ht
      simp at ht
    · have hf := push_fields q v h
      refine ⟨?_, hf.2.2.2.1⟩
      rw [hf.2.2.2.2, get_next_index_eq _ _ hr.wf.wi_lt]
  · intro hfalse
    by_cases h : q.current_size = q.MAX_SIZE
    · rw [push_full q v h]
    · rw [(push_fields q v h).1] at hfalse
      simp at hfalse
  · intro ht
    by_cases h : q.current_size = 0
    · rw [pop_empty q out h] at ht
      simp at ht
    · have hf := pop_fields q out h
      refine ⟨?_, hf.2.2.2.1⟩
      rw [hf.2.2.2.2, get_next_index_eq _ _ hr.wf.ri_lt]
  · intro hfalse
    by_cases h : q.current_size = 0
    · rw [pop_empty q out h]
    · rw [(pop_fields q out h).1] at hfalse
      simp at hfalse

/-- Witness for C8 at the freshly constructed two-slot queue. -/
theorem C8_index_advancement_witness :
    (initial Nat 2).write_index < (initial Nat 2).MAX_SIZE ∧
    get_next_index 1 3 = (1 + 1) % 3 :=
  ⟨(C8_index_advancement (initial Nat 2) 5 0 1 3
      (Reachable.init 2 (by decide)) (by decide)).1,
    (C8_index_advancement (initial Nat 2) 5 0 1 3
      (Reachable.init 2 (by decide)) (by decide)).2.2.2.2.2.2⟩

/-- C9: with no-op lock and unlock callables, any call sequence run
through the locked API produces the same observable outputs and the
same final queue state (and caller variable) as the same sequence run
through the _from_unlocked API, and leaves the lock world untouched. -/
theorem C9_noop_lock_equivalence (ops : List (QOp α β)) (q : Queue α)
    (x : α) (w : W) :
    run_locked (noLocks W) q x w ops =
      ((run_from_unlocked q x ops).1, (run_from_unlocked q x ops).2.1,
        (run_from_unlocked q x ops).2.2, w) := by
  induction ops generalizing q x w with
  | nil => rfl
  | cons op ops ih =>
    cases op <;>
      simp [run_locked, run_from_unlocked, noLocks_lock, noLocks_unlock,
        iqueue_spsc_locked.push, iqueue_spsc_locked.emplace,
        iqueue_spsc_locked.pop, iqueue_spsc_locked.pop_discard,
        iqueue_spsc_locked.clear, iqueue_spsc_locked.empty,
        iqueue_spsc_locked.full, iqueue_spsc_locked.size,
        iqueue_spsc_locked.available, push_from_unlocked,
        emplace_from_unlocked, pop_from_unlocked,
        pop_from_unlocked_discard, empty_from_unlocked,
        full_from_unlocked, size_from_unlocked, available_from_unlocked,
        ih]

/-- C10: in every reachable state write_index equals
(read_index + current_size) mod MAX_SIZE, and the states produced from
it by push, emplace, pop (both forms) and clear satisfy the same
equation. -/
theorem C10_write_read_size_equation (q : Queue α) (v out : α)
    (ctor : β → α) (args : β) (hr : Reachable q) :
    q.write_index = (q.read_index + q.current_size) % q.MAX_SIZE ∧
    (push_implementation q v).2.write_index =
      ((push_implementation q v).2.read_index +
        (push_implementation q v).2.current_size) %
        (push_implementation q v).2.MAX_SIZE ∧
    (emplace_implementation q ctor args).2.write_index =
      ((emplace_implementation q ctor args).2.read_index +
        (emplace_implementation q ctor args).2.current_size) %
        (emplace_implementation q ctor args).2.MAX_SIZE ∧
    (pop_implementation q out).2.2.write_index =
      ((pop_implementation q out).2.2.read_index +
        (pop_implementation q out).2.2.current_size) %
        (pop_implementation q out).2.2.MAX_SIZE ∧
    (pop_implementation_discard q).2.write_index =
      ((pop_implementation_discard q).2.read_index +
        (pop_implementation_discard q).2.current_size) %
        (pop_implementation_discard q).2.MAX_SIZE ∧
    (clear_from_unlocked q).write_index =
      ((clear_from_unlocked q).read_index +
        (clear_from_unlocked q).current_size) %
        (clear_from_unlocked q).MAX_SIZE :=
  ⟨hr.wf.wi_eq, (Reachable.push q v hr).wf.wi_eq,
    (Reachable.emplace q ctor args hr).wf.wi_eq,
    (Reachable.pop q out hr).wf.wi_eq,
    (Reachable.pop_discard q hr).wf.wi_eq,
    (Reachable.clear q hr).wf.wi_eq⟩

/-- Witness for C10 at a two-slot queue holding one element. -/
theorem C10_write_read_size_equation_witness :
    (push_implementation (initial Nat 2) 5).2.write_index =
      ((push_implementation (initial Nat 2) 5).2.read_index +
        (push_implementation (initial Nat 2) 5).2.current_size) %
        (push_implementation (initial Nat 2) 5).2.MAX_SIZE :=
  (C10_write_read_size_equation (push_implementation (initial Nat 2) 5).2
    6 0 (fun n : Nat => n) 0
    (Reachable.push (initial Nat 2) 5 (Reachable.init 2 (by decide)))).1

end EtlQueue
